import Mathlib

/-!
Verification of the LSP transport and analysis engine in
`skills/code-quality/scripts/analyze_with_lsp.ts` (and the sibling client
`language-server-client/scripts/lsp_client.ts`).

Modelling conventions:
* A JavaScript string is modelled as `List Char`.  For characters of the
  basic multilingual plane one JS UTF-16 code unit corresponds to one
  `Char`, so `List.length` models the JS `.length` / `indexOf` /
  `substring` index arithmetic used by `handleData`.
* `Buffer.byteLength(s, "utf8")` is modelled by `utf8Len`, the sum of the
  UTF-8 sizes of the characters.
* Message bodies are kept abstract as their serialized text
  (`JSON.stringify` output); `JSON.parse` is injective on the wire text,
  so equality of bodies models equality of messages.
-/

namespace LspAnalyze

/-- JS `\w` character class (ASCII letters, digits, underscore). -/
def isWordChar (c : Char) : Bool :=
  c.isAlphanum || c = '_'

/-- Whitespace recognised by the JS `\s` class in the inputs we model
(space, tab, carriage return, vertical tab, form feed). -/
def isJsSpace (c : Char) : Bool :=
  c = ' ' || c = '\t' || c = '\r' || c = '\x0b' || c = '\x0c'

/-- UTF-8 byte count of a JS string, i.e. `Buffer.byteLength(s, "utf8")`. -/
def utf8Len (s : List Char) : Nat :=
  (s.map Char.utf8Size).sum

/-- Does `s` start with `pat`?  Models anchored matching of a literal. -/
def leadsWith : List Char → List Char → Bool
  | _, [] => true
  | [], _ :: _ => false
  | c :: cs, p :: ps => c = p && leadsWith cs ps

/-- Index of the first occurrence of `pat` in `s` (JS `String.indexOf`),
`none` when `pat` does not occur. -/
def findSubIdx (pat : List Char) : List Char → Option Nat
  | [] => if leadsWith [] pat then some 0 else none
  | c :: rest =>
    if leadsWith (c :: rest) pat then some 0
    else (findSubIdx pat rest).map (· + 1)

/-- The decimal digit character for `d % 10`. -/
def digitChar (d : Nat) : Char :=
  match d with
  | 0 => '0' | 1 => '1' | 2 => '2' | 3 => '3' | 4 => '4'
  | 5 => '5' | 6 => '6' | 7 => '7' | 8 => '8' | _ => '9'

/-- Decimal numeral worker; the fuel argument only bounds the recursion
depth (a number `n` has at most `n` digits, and `n / 10` decreases), so
with fuel `n` the zero-fuel branch is reached only for `n = 0`, where it
is the correct numeral as well. -/
def natToDecAux : Nat → Nat → List Char
  | 0, n => [digitChar (n % 10)]
  | fuel + 1, n =>
    if n < 10 then [digitChar n]
    else natToDecAux fuel (n / 10) ++ [digitChar (n % 10)]

/-- Decimal numeral of a natural number, modelling JS number-to-string
interpolation `${n}` for non-negative integers. -/
def natToDec (n : Nat) : List Char := natToDecAux n n

/-- Numeric value of a decimal digit run, modelling `parseInt(run, 10)`. -/
def parseDec (s : List Char) : Nat :=
  s.foldl (fun acc c => 10 * acc + (c.toNat - 48)) 0

/-- The header/body separator `"\r\n\r\n"`. -/
def headerSep : List Char := ['\r', '\n', '\r', '\n']

/-- Lower-cased header pattern of the regex `/Content-Length: (\d+)/i`. -/
def clPat : List Char := "content-length: ".data

/-- Model of `headers.match(/Content-Length: (\d+)/i)` followed by
`parseInt(match[1], 10)`: scan for the first case-insensitive occurrence of
`Content-Length: ` that is followed by at least one digit, and return the
value of the maximal digit run. -/
def matchContentLength : List Char → Option Nat
  | [] => none
  | c :: rest =>
    if leadsWith ((c :: rest).map Char.toLower) clPat then
      let digits := ((c :: rest).drop clPat.length).takeWhile Char.isDigit
      if digits.isEmpty then matchContentLength rest
      else some (parseDec digits)
    else matchContentLength rest

/-- The `while (true)` loop of `LSPClient.handleData`: repeatedly locate the
header/body boundary, read the declared `Content-Length`, and once the
buffer holds `headerEnd + 4 + contentLength` *string units* extract that
slice as one message.  Faithfully to the source, the declared length (a
UTF-8 byte count on the encoding side) is compared against and sliced by
JS string length.  Returns the emitted message bodies and the remaining
buffer. -/
def drainLoop : Nat → List Char → List (List Char) × List Char
  | 0, buf => ([], buf)
  | fuel + 1, buf =>
    match findSubIdx headerSep buf with
    | none => ([], buf)
    | some headerEnd =>
      match matchContentLength (buf.take headerEnd) with
      | none => ([], [])
      | some contentLength =>
        let messageStart := headerEnd + 4
        let messageEnd := messageStart + contentLength
        if buf.length < messageEnd then ([], buf)
        else
          let msg := (buf.drop messageStart).take contentLength
          let out := drainLoop fuel (buf.drop messageEnd)
          (msg :: out.1, out.2)

/-- The loop of `handleData` run to completion.  Every iteration that does
not stop consumes `messageEnd ≥ 4` buffer characters, so fuel equal to
the buffer length is never exhausted (the zero-fuel branch is reached
only with an empty buffer, where stopping is also what the loop does). -/
def drainBuffer (buf : List Char) : List (List Char) × List Char :=
  drainLoop buf.length buf

/-- `LSPClient.handleData`: append the decoded chunk to the accumulation
buffer and drain all complete messages. -/
def feedFramer (buffer chunk : List Char) : List (List Char) × List Char :=
  drainBuffer (buffer ++ chunk)

/-- Feed a sequence of chunks to a fresh framer, collecting all outputs. -/
def feedAll (chunks : List (List Char)) : List (List Char) × List Char :=
  chunks.foldl
    (fun acc chunk =>
      let out := feedFramer acc.2 chunk
      (acc.1 ++ out.1, out.2))
    ([], [])

/-- The wire form written by `sendRequest` / `sendNotification` in both
clients:
`header = "Content-Length: " + Buffer.byteLength(content, "utf8") + "\r\n\r\n"`
followed by the serialized body. -/
def encodeMessage (body : List Char) : List Char :=
  "Content-Length: ".data ++ natToDec (utf8Len body) ++ headerSep ++ body

/-- Wire form as worded by the claim: header string `"Length: "`, declared
length, blank line, body.  Second definition kept verbatim to the claim
text for comparison with `encodeMessage`. -/
def claimWireMessage (body : List Char) : List Char :=
  "Length: ".data ++ natToDec (utf8Len body) ++ headerSep ++ body

/-! ### Transport session state machine

Model of `LSPClient` in `analyze_with_lsp.ts`: `nextRequestId` starts at 1,
`pendingRequests` is a map from request id to completion handle.
`sendRequest` allocates `this.nextRequestId++` and registers the handle;
`handleMessage` resolves or rejects by id; the per-request `setTimeout`
callback deletes the entry and rejects with a timeout error; the child
process `exit` event handler only re-emits an `exit` event
(`this.process.on("exit", (code) => this.emit("exit", code))`). -/

/-- Errors a pending request can be completed with in the source: the
timeout rejection `Request ${method} timed out` and the remote error
rejection `new Error(message.error.message)`. -/
inductive LspErr where
  | timeout (method : String)
  | remote (msg : String)
deriving DecidableEq, Repr

/-- A settled caller promise: resolved with a result or rejected. -/
inductive Completion where
  | ok (id : Nat) (result : Int)
  | err (id : Nat) (e : LspErr)
deriving DecidableEq, Repr

/-- The asynchronous events that mutate the pending-request map. -/
inductive ClientEvent where
  | response (id : Nat) (result : Int)
  | errorResponse (id : Nat) (msg : String)
  | timerFire (id : Nat)
  | processExit (code : Int)
deriving DecidableEq, Repr

/-- `nextRequestId` counter and `pendingRequests` map (association list in
insertion order; JS `Map` keys are unique, which holds for every state
reachable through `sendRequest`). -/
structure ClientState where
  nextRequestId : Nat
  pending : List (Nat × String)
deriving DecidableEq, Repr

/-- Fresh client: `nextRequestId = 1`, no pending requests. -/
def initialClient : ClientState := ⟨1, []⟩

/-- `sendRequest`: allocate `this.nextRequestId++`, register the pending
entry, return the allocated id and the new state. -/
def sendRequest (s : ClientState) (method : String) : Nat × ClientState :=
  (s.nextRequestId, ⟨s.nextRequestId + 1, s.pending ++ [(s.nextRequestId, method)]⟩)

/-- `this.pendingRequests.get(id)` (returning the stored method). -/
def lookupPending (l : List (Nat × String)) (id : Nat) : Option String :=
  (l.find? (fun p => p.1 = id)).map Prod.snd

/-- `this.pendingRequests.delete(id)` (keys unique, so filtering removes
exactly the one binding). -/
def removePending (l : List (Nat × String)) (id : Nat) : List (Nat × String) :=
  l.filter (fun p => ¬ p.1 = id)

/-- One event against the client.  `response`/`errorResponse` model
`handleMessage` on a message with an `id` field; `timerFire` models the
`setTimeout` callback (which can only run while the entry is present,
since resolution calls `clearTimeout`); `processExit` models the child
process `exit` handler, which only emits and touches nothing else. -/
def step (s : ClientState) : ClientEvent → ClientState × List Completion
  | .response id r =>
    match lookupPending s.pending id with
    | some _ => (⟨s.nextRequestId, removePending s.pending id⟩, [.ok id r])
    | none => (s, [])
  | .errorResponse id msg =>
    match lookupPending s.pending id with
    | some _ => (⟨s.nextRequestId, removePending s.pending id⟩, [.err id (.remote msg)])
    | none => (s, [])
  | .timerFire id =>
    match lookupPending s.pending id with
    | some m => (⟨s.nextRequestId, removePending s.pending id⟩, [.err id (.timeout m)])
    | none => (s, [])
  | .processExit _ => (s, [])

/-- Process a list of events in order, concatenating the completions. -/
def runClient (s : ClientState) : List ClientEvent → ClientState × List Completion
  | [] => (s, [])
  | e :: es =>
    let out := step s e
    let rest := runClient out.1 es
    (rest.1, out.2 ++ rest.2)

/-- Issue a batch of requests in sequence, returning the allocated ids. -/
def sendBatch (s : ClientState) : List String → List Nat × ClientState
  | [] => ([], s)
  | m :: ms =>
    let out := sendRequest s m
    let rest := sendBatch out.2 ms
    (out.1 :: rest.1, rest.2)

/-! ### Query facade -/

/-- LSP position (`{ line, character }`). -/
structure Pos where
  line : Nat
  character : Nat
deriving DecidableEq, Repr

/-- LSP range.  The source field `end` is a Lean keyword, rendered `stop`. -/
structure RangeT where
  start : Pos
  stop : Pos
deriving DecidableEq, Repr

/-- LSP location. -/
structure Loc where
  uri : String
  range : RangeT
deriving DecidableEq, Repr

/-- How a facade-level `sendRequest` promise settles: resolved with the
(possibly null) `message.result`, or rejected. -/
inductive ReqOutcome (α : Type) where
  | resolved (v : Option α)
  | failed (e : LspErr)
deriving DecidableEq, Repr

/-- `findReferences`: `try { return await sendRequest(...) || [] } catch
{ return [] }` — a null result or any rejection becomes `[]`. -/
def referencesResult (r : ReqOutcome (List Loc)) : List Loc :=
  match r with
  | .resolved (some locs) => locs
  | .resolved none => []
  | .failed _ => []

/-- `hover`: `try { return await sendRequest(...) } catch { return null }`. -/
def hoverResult {α : Type} (r : ReqOutcome α) : Option α :=
  match r with
  | .resolved v => v
  | .failed _ => none

/-! ### Symbol index and detectors -/

/-- The `SYMBOL_KINDS` table with the `|| "unknown"` fallback. -/
def symbolKindName (k : Nat) : String :=
  match k with
  | 1 => "file" | 2 => "module" | 3 => "namespace" | 4 => "package"
  | 5 => "class" | 6 => "method" | 7 => "property" | 8 => "field"
  | 9 => "constructor" | 10 => "enum" | 11 => "interface" | 12 => "function"
  | 13 => "variable" | 14 => "constant" | 15 => "string" | 16 => "number"
  | 17 => "boolean" | 18 => "array" | 19 => "object" | 20 => "key"
  | 21 => "null" | 22 => "enummember" | 23 => "struct" | 24 => "event"
  | 25 => "operator" | 26 => "typeparameter" | _ => "unknown"

/-- One entry of the flattened symbol index (`SymbolInfo`).  The source
stores `kindName` alongside `kind`; `flattenSymbols` always sets
`kindName = SYMBOL_KINDS[kind] || "unknown"`, so here it is recomputed by
`symbolKindName` wherever the source reads `sym.kindName`.  `range` is a
required field of the source interface; only `selectionRange` and
`detail` are optional. -/
structure SymbolInfo where
  name : String
  fullName : String
  kind : Nat
  uri : String
  file : String
  range : RangeT
  selectionRange : Option RangeT
  detail : Option String
deriving DecidableEq, Repr

/-- `sym.selectionRange?.start || sym.range?.start`; `range` is always
present, so the position is always defined. -/
def symbolPosition (sym : SymbolInfo) : Pos :=
  match sym.selectionRange with
  | some r => r.start
  | none => sym.range.start

/-- `const exportableKinds = [5, 6, 11, 12]` (class, method, interface,
function). -/
def exportableKinds : List Nat := [5, 6, 11, 12]

/-- JS `String.startsWith`, stated on the character lists of the two
strings. -/
def jsStartsWith (s pre : String) : Bool :=
  leadsWith s.data pre.data

/-- A `result.unusedSymbols` entry. -/
structure UnusedFinding where
  name : String
  kind : String
  file : String
  line : Nat
  referenceCount : Nat
  confidence : String
deriving DecidableEq, Repr

/-- The finding pushed for an unreferenced symbol: confidence `high` for
kind 5 (class) or 12 (function), `medium` otherwise. -/
def mkUnusedFinding (sym : SymbolInfo) : UnusedFinding :=
  { name := sym.name
    kind := symbolKindName sym.kind
    file := sym.file
    line := (symbolPosition sym).line + 1
    referenceCount := 0
    confidence := if sym.kind = 5 ∨ sym.kind = 12 then "high" else "medium" }

/-- The unused-symbol detector loop.  `refs uri pos includeDecl` is the
list returned by `client.findReferences` (already `[]` on timeout or
error, per `referencesResult`); the detector passes
`includeDeclaration = false` and pushes a finding exactly when
`refs.length === 0`. -/
def unusedAnalysis (refs : String → Pos → Bool → List Loc)
    (syms : List SymbolInfo) : List UnusedFinding :=
  syms.filterMap fun sym =>
    if sym.kind ∈ exportableKinds then
      if jsStartsWith sym.name "_" || jsStartsWith sym.name "#" then none
      else if (refs sym.uri (symbolPosition sym) false).length = 0 then
        some (mkUnusedFinding sym)
      else none
    else none

/-! ### Similar-types detector -/

/-- `(line.match(/{/g) || []).length` for a single character. -/
def countChar (c : Char) (line : List Char) : Nat :=
  (line.filter (fun d => d = c)).length

/-- `line.match(/^\s*(\w+)\s*[?]?\s*:/)`: anchored at line start, optional
whitespace, a maximal nonempty word-character run (the property name),
optional whitespace, an optional `?`, optional whitespace, then `:`. -/
def propMatchLine (line : List Char) : Option (List Char) :=
  let rest := line.dropWhile isJsSpace
  let w := rest.takeWhile isWordChar
  if w.isEmpty then none
  else
    let after := (rest.drop w.length).dropWhile isJsSpace
    let after2 :=
      match after with
      | '?' :: t => t.dropWhile isJsSpace
      | _ => after
    match after2 with
    | ':' :: _ => some w
    | _ => none

/-- Loop body of `extractTypeProperties`: scan at most 50 lines starting
at the declaration line, tracking brace depth; while inside braces
(`started && braceCount > 0`) collect property names; stop when the depth
returns to zero on a line after braces have started. -/
def extractLoop : Nat → List (List Char) → Int → Bool → List (List Char)
  | 0, _, _, _ => []
  | _, [], _, _ => []
  | fuel + 1, line :: rest, braceCount, started =>
    let hasOpen := line.contains '{'
    let started1 := started || hasOpen
    let bc1 := if hasOpen then braceCount + countChar '{' line else braceCount
    let bc2 := if line.contains '}' then bc1 - countChar '}' line else bc1
    let here :=
      if started1 && 0 < bc2 then
        match propMatchLine line with
        | some w => [w]
        | none => []
      else []
    if started1 && bc2 = 0 then here
    else here ++ extractLoop fuel rest bc2 started1

/-- `extractTypeProperties(content, startLine, name)` (the `name` argument
is unused in the source).  `content.split("\n")` is modelled by passing
the line list directly. -/
def extractTypeProperties (lines : List (List Char)) (startLine : Nat) :
    List (List Char) :=
  extractLoop 50 (lines.drop startLine) 0 false

/-- `new Set([...props1, ...props2]).size`: the number of distinct
property names across the two lists. -/
def unionSetSize (props1 props2 : List (List Char)) : Nat :=
  ((props1 ++ props2).dedup).length

/-- `calculateSimilarity`: `shared` keeps every entry of `props1` found in
`props2` (with multiplicity, since `props1` is filtered as an array);
the denominator is the size of the union *set*.  JS numbers are doubles;
for the list sizes involved the double value compares against `0.5`
exactly like the rational value used here. -/
def calculateSimilarity (props1 props2 : List (List Char)) :
    List (List Char) × ℚ :=
  let shared := props1.filter (fun p => p ∈ props2)
  let unionSize := unionSetSize props1 props2
  (shared, if 0 < unionSize then (shared.length : ℚ) / (unionSize : ℚ) else 0)

/-- `Math.round(similarity * 100)` where `similarity = s / u` with
`u > 0`: `floor(100 * s / u + 1 / 2) = (200 * s + u) / (2 * u)` in
integer arithmetic (`Math.round` rounds ties up; the double computation
is exact at these magnitudes). -/
def roundPct (s u : Nat) : Nat := (200 * s + u) / (2 * u)

/-- Size of the intersection of the two property-name *sets* (the number
of distinct shared names), as worded by the claim. -/
def sharedSetSize (props1 props2 : List (List Char)) : Nat :=
  ((props1.dedup).filter (fun p => p ∈ props2)).length

/-- Jaccard similarity as worded by the claim:
`|intersection| / |union|` of the two property-name *sets*.  Definition
follows the claim text, for comparison with `calculateSimilarity`. -/
def jaccardSpec (props1 props2 : List (List Char)) : ℚ :=
  if 0 < unionSetSize props1 props2 then
    (sharedSetSize props1 props2 : ℚ) / (unionSetSize props1 props2 : ℚ)
  else 0

/-- A candidate entry of the detector's `types` array. -/
structure TypeEntry where
  name : String
  file : String
  line : Nat
  properties : List (List Char)
deriving DecidableEq, Repr

/-- Candidate collection (lines 777-793): for each class/interface symbol
with available file content, textually extract the property names from
its start line; only types with at least two extracted properties enter
the candidate list.  `contents` maps a file to its line list
(`fileContents` keyed as in the source). -/
def collectTypes (contents : String → Option (List (List Char)))
    (syms : List SymbolInfo) : List TypeEntry :=
  syms.filterMap fun sym =>
    if symbolKindName sym.kind = "interface" ∨ symbolKindName sym.kind = "class" then
      match contents sym.file with
      | none => none
      | some lines =>
        let properties := extractTypeProperties lines sym.range.start.line
        if 2 ≤ properties.length then
          some ⟨sym.fullName, sym.file, sym.range.start.line + 1, properties⟩
        else none
    else none

/-- Lexicographic comparison of JS strings (by code unit; all strings here
are in the basic plane). -/
def lexLe : List Char → List Char → Bool
  | [], _ => true
  | _ :: _, [] => false
  | a :: as, b :: bs => if a = b then lexLe as bs else decide (a < b)

/-- `[t1.name, t2.name].sort().join("|")`. -/
def pairKey (a b : String) : String :=
  if lexLe a.data b.data then a ++ "|" ++ b else b ++ "|" ++ a

/-- A `result.similarTypes` entry (`types: [t1, t2]` kept as two fields;
`similarity` is the rounded percentage the source stores). -/
structure SimilarFinding where
  typeA : TypeEntry
  typeB : TypeEntry
  sharedProperties : List (List Char)
  similarity : Nat
deriving DecidableEq, Repr

/-- The nested `i < j` pair enumeration over the candidate array, in
source order. -/
def pairsFrom : List TypeEntry → List (TypeEntry × TypeEntry)
  | [] => []
  | t :: rest => (rest.map fun u => (t, u)) ++ pairsFrom rest

/-- The pair loop (lines 796-819): skip pairs of equal names, skip name
pairs already processed, otherwise record the key and emit a finding when
`similarity >= SIMILARITY_THRESHOLD` (`0.5`) and `shared.length >= 2`.
The threshold test appears as the exact integer form
`unionSize <= 2 * shared.length`; the lemma `similarEmit_iff_rat` below
proves it equivalent, jointly with the `2 <= shared.length` conjunct, to
the rational test `1/2 <= (calculateSimilarity ...).2`. -/
def similarLoop : List (TypeEntry × TypeEntry) → List String → List SimilarFinding
  | [], _ => []
  | (t1, t2) :: rest, processed =>
    if t1.name = t2.name then similarLoop rest processed
    else
      let key := pairKey t1.name t2.name
      if key ∈ processed then similarLoop rest processed
      else
        let shared := t1.properties.filter (fun p => p ∈ t2.properties)
        let u := unionSetSize t1.properties t2.properties
        if u ≤ 2 * shared.length ∧ 2 ≤ shared.length then
          ⟨t1, t2, shared, roundPct shared.length u⟩ ::
            similarLoop rest (key :: processed)
        else similarLoop rest (key :: processed)

/-- The similar-types detector, before the final ranking sort (the sort by
descending similarity only permutes the list and is not modelled). -/
def similarTypesAnalysis (contents : String → Option (List (List Char)))
    (syms : List SymbolInfo) : List SimilarFinding :=
  similarLoop (pairsFrom (collectTypes contents syms)) []

/-! ### Dead-parameter detector -/

/-- First match of `/\(([^)]*)\)/`: the text between the first `(` and the
first `)` after it; no match when no `)` follows any `(`. -/
def firstParenGroup : List Char → Option (List Char)
  | [] => none
  | c :: rest =>
    if c = '(' then
      let grp := rest.takeWhile (fun d => ¬ d = ')')
      if grp.length < rest.length then some grp else none
    else firstParenGroup rest

/-- `s.split(",")`. -/
def splitComma : List Char → List (List Char)
  | [] => [[]]
  | c :: rest =>
    if c = ',' then [] :: splitComma rest
    else
      match splitComma rest with
      | [] => [[c]]
      | g :: gs => (c :: g) :: gs

/-- JS `String.trim` (whitespace from both ends). -/
def jsTrim (l : List Char) : List Char :=
  ((l.dropWhile isJsSpace).reverse.dropWhile isJsSpace).reverse

/-- `paramMatch[1].split(",").map(p => p.trim().match(/^(\w+)/)...)
.filter(Boolean)`: the leading word-character run of each trimmed piece,
dropping pieces with none. -/
def paramNamesOf (grp : List Char) : List (List Char) :=
  (splitComma grp).filterMap fun p =>
    let w := (jsTrim p).takeWhile isWordChar
    if w.isEmpty then none else some w

/-- Is the previous character a word boundary. -/
def boundaryBefore : Option Char → Bool
  | none => true
  | some c => ¬ isWordChar c

/-- Scan for an occurrence of `w` preceded and followed by a non-word
character (or a string edge). -/
def hasWholeWordAux (w : List Char) : Option Char → List Char → Bool
  | _, [] => false
  | prev, c :: rest =>
    (leadsWith (c :: rest) w && boundaryBefore prev &&
      (match (c :: rest).drop w.length with
       | [] => true
       | d :: _ => ¬ isWordChar d)) ||
    hasWholeWordAux w (some c) rest

/-- `new RegExp("\\b" + param + "\\b").test(body)` for a parameter name
made of word characters. -/
def hasWholeWord (w body : List Char) : Bool :=
  hasWholeWordAux w none body

/-- `lines.slice(a, b)`. -/
def sliceLines (lines : List (List Char)) (a b : Nat) : List (List Char) :=
  (lines.drop a).take (b - a)

/-- A `result.deadParameters` entry. -/
structure DeadParamFinding where
  functionName : String
  parameterName : List Char
  file : String
  line : Nat
deriving DecidableEq, Repr

/-- Dead-parameter scan of one symbol (lines 701-739): only functions and
methods; the parameter list is taken from the declaration's first line
(`lines[startLine] || ""`); the searched body text is
`lines.slice(startLine + 1, endLine + 1).join("\n")` with
`endLine = Math.min(range.end.line, lines.length - 1)`; `self`, `this`
and `cls` are never reported; a remaining parameter is reported exactly
when it has no whole-word occurrence in that body text. -/
def deadForSym (contents : String → Option (List (List Char)))
    (sym : SymbolInfo) : List DeadParamFinding :=
  if symbolKindName sym.kind = "function" ∨ symbolKindName sym.kind = "method" then
    match contents sym.file with
    | none => []
    | some lines =>
      let startLine := sym.range.start.line
      let endLine := min sym.range.stop.line (lines.length - 1)
      match firstParenGroup (lines.getD startLine []) with
      | none => []
      | some grp =>
        let bodyText :=
          List.intercalate ['\n'] (sliceLines lines (startLine + 1) (endLine + 1))
        (paramNamesOf grp).filterMap fun param =>
          if param = "self".data ∨ param = "this".data ∨ param = "cls".data then
            none
          else if hasWholeWord param bodyText then none
          else some ⟨sym.fullName, param, sym.file, startLine + 1⟩
  else []

/-- The dead-parameter detector over the symbol index. -/
def deadParamsAnalysis (contents : String → Option (List (List Char)))
    (syms : List SymbolInfo) : List DeadParamFinding :=
  syms.flatMap (deadForSym contents)

/-! ### Concrete fixtures: inputs for the scenario and counterexample
theorems below.  These are data values fed to the embedded detectors, not
translations of source code. -/

/-- A JSON body with one non-ASCII character: 9 JS string units but 10
UTF-8 bytes. -/
def c1Body : List Char := "\x7b\"v\":\"é\"\x7d".data

/-- File whose interface `T1` textually extracts the property list
`[a, a, b]`: the nested object literal under `a` repeats the name `a`
at brace depth 2, and the brace-depth scan collects it again. -/
def t1lines : List (List Char) :=
  ["interface T1 \x7b".data, "  a: \x7b".data, "    a: number".data,
   "  \x7d".data, "  b: number".data, "\x7d".data]

/-- File whose interface `T2` extracts the property list `[a, c, d]`. -/
def t2lines : List (List Char) :=
  ["interface T2 \x7b".data, "  a: number".data, "  c: number".data,
   "  d: number".data, "\x7d".data]

/-- An interface symbol (kind 11) declared at line 0 of `fl`. -/
def mkTypeSym (nm fl : String) : SymbolInfo :=
  { name := nm, fullName := nm, kind := 11, uri := "u", file := fl,
    range := ⟨⟨0, 0⟩, ⟨10, 0⟩⟩, selectionRange := none, detail := none }

/-- Contents map for the duplicate-property counterexample. -/
def cx7contents : String → Option (List (List Char)) :=
  fun f =>
    if f = "t1.ts" then some t1lines
    else if f = "t2.ts" then some t2lines
    else none

/-- Scenario interface `{label, data}`. -/
def s1lines : List (List Char) :=
  ["interface S1 \x7b".data, "  label: string".data, "  data: string".data,
   "\x7d".data]

/-- Scenario interface `{label, data, extra}`. -/
def s2lines : List (List Char) :=
  ["interface S2 \x7b".data, "  label: string".data, "  data: string".data,
   "  extra: string".data, "\x7d".data]

/-- Contents map for the `{label, data}` / `{label, data, extra}`
scenario. -/
def sc7contents : String → Option (List (List Char)) :=
  fun f =>
    if f = "s1.ts" then some s1lines
    else if f = "s2.ts" then some s2lines
    else none

/-- The finding the similar-types detector produces for the scenario. -/
def s1Finding : SimilarFinding :=
  ⟨⟨"S1", "s1.ts", 1, ["label".data, "data".data]⟩,
   ⟨"S2", "s2.ts", 1, ["label".data, "data".data, "extra".data]⟩,
   ["label".data, "data".data], 67⟩

/-- A single-property interface body, used twice (textually identical). -/
def p1lines : List (List Char) :=
  ["interface P \x7b".data, "  only: string".data, "\x7d".data]

/-- Contents map with two textually identical single-property types. -/
def c10contents : String → Option (List (List Char)) :=
  fun f =>
    if f = "p1.ts" then some p1lines
    else if f = "p2.ts" then some p1lines
    else none

/-- Function `f`, declared once in `a.ts`, never referenced. -/
def fdecl : SymbolInfo :=
  { name := "f", fullName := "f", kind := 12, uri := "file:///a.ts",
    file := "a.ts", range := ⟨⟨3, 0⟩, ⟨5, 1⟩⟩,
    selectionRange := some ⟨⟨3, 9⟩, ⟨3, 10⟩⟩, detail := none }

/-- Function `g`, declared in `b.ts` and referenced once elsewhere. -/
def gdecl : SymbolInfo :=
  { name := "g", fullName := "g", kind := 12, uri := "file:///b.ts",
    file := "b.ts", range := ⟨⟨0, 0⟩, ⟨2, 1⟩⟩,
    selectionRange := some ⟨⟨0, 9⟩, ⟨0, 10⟩⟩, detail := none }

/-- Reference oracle for the unused-detector scenario: one usage of `g`
from another file, none of `f`. -/
def refsScenario : String → Pos → Bool → List Loc :=
  fun uri _ _ =>
    if uri = "file:///b.ts" then [⟨"file:///c.ts", ⟨⟨7, 2⟩, ⟨7, 3⟩⟩⟩] else []

/-- A function whose whole declaration, parameter list and body sit on a
single line (`range` starts and ends on line 0). -/
def fsym : SymbolInfo :=
  { name := "f", fullName := "f", kind := 12, uri := "u", file := "a.ts",
    range := ⟨⟨0, 0⟩, ⟨0, 26⟩⟩, selectionRange := none, detail := none }

/-- Contents map for the one-line function `function f(x) { return x; }`
(the parameter `x` is used in the body, on the declaration line). -/
def c8contents : String → Option (List (List Char)) :=
  fun f =>
    if f = "a.ts" then some ["function f(x) \x7b return x; \x7d".data]
    else none

/-! ## Supporting lemmas: pending-request map -/

theorem lookupPending_some_of_mem {l : List (Nat × String)} {id : Nat}
    (h : id ∈ l.map Prod.fst) : ∃ m, lookupPending l id = some m := by
  induction l with
  | nil => simp at h
  | cons p rest ih =>
    by_cases hp : p.1 = id
    · exact ⟨p.2, by simp [lookupPending, hp]⟩
    · have hmem : id ∈ rest.map Prod.fst := by
        have h' : id ∈ p.1 :: rest.map Prod.fst := by
          simpa only [List.map_cons] using h
        rcases List.mem_cons.1 h' with h1 | h1
        · exact (hp h1.symm).elim
        · exact h1
      obtain ⟨m, hm⟩ := ih hmem
      exact ⟨m, by simpa [lookupPending, hp] using hm⟩

theorem lookupPending_removePending_self (l : List (Nat × String)) (id : Nat) :
    lookupPending (removePending l id) id = none := by
  induction l with
  | nil => rfl
  | cons p rest ih =>
    by_cases hp : p.1 = id
    · simpa [removePending, List.filter_cons, hp] using ih
    · simpa [removePending, lookupPending, List.filter_cons, hp] using ih

theorem find?_filterKey (id j : Nat) (h : ¬ j = id) :
    ∀ l : List (Nat × String),
      List.find? (fun p => p.1 = j) (l.filter fun p => ¬ p.1 = id)
        = List.find? (fun p => p.1 = j) l := by
  intro l
  induction l with
  | nil => rfl
  | cons p rest ih =>
    rw [List.filter_cons]
    by_cases hp : p.1 = id
    · have hpj : ¬ p.1 = j := fun he => h (by rw [← he, hp])
      rw [if_neg (by simp [hp]), ih, List.find?_cons_of_neg _ (by simp [hpj])]
    · rw [if_pos (by simp [hp])]
      by_cases hpj : p.1 = j
      · rw [List.find?_cons_of_pos _ (by simp [hpj]),
          List.find?_cons_of_pos _ (by simp [hpj])]
      · rw [List.find?_cons_of_neg _ (by simp [hpj]),
          List.find?_cons_of_neg _ (by simp [hpj]), ih]

theorem lookupPending_removePending_ne {l : List (Nat × String)} {id j : Nat}
    (h : ¬ j = id) :
    lookupPending (removePending l id) j = lookupPending l j := by
  unfold lookupPending removePending
  rw [find?_filterKey id j h l]

theorem keys_removePending (l : List (Nat × String)) (id : Nat) :
    (removePending l id).map Prod.fst
      = (l.map Prod.fst).filter (fun a => ¬ a = id) := by
  induction l with
  | nil => rfl
  | cons p rest ih =>
    by_cases hp : p.1 = id <;>
      simp [removePending, List.filter_cons, hp, ih] <;>
      simp [removePending] at ih <;> exact ih

theorem removePending_of_not_mem {l : List (Nat × String)} {id : Nat}
    (h : id ∉ l.map Prod.fst) : removePending l id = l := by
  refine List.filter_eq_self.mpr (fun p hp => ?_)
  have hne : ¬ p.1 = id := fun he => h (he ▸ List.mem_map_of_mem Prod.fst hp)
  simpa using hne

theorem runClient_responses : ∀ (resps : List (Nat × Int)) (s : ClientState),
    (s.pending.map Prod.fst).Nodup →
    (∀ p ∈ resps, p.1 ∈ s.pending.map Prod.fst) →
    (resps.map Prod.fst).Nodup →
    (runClient s (resps.map fun p => ClientEvent.response p.1 p.2)).2
      = resps.map fun p => Completion.ok p.1 p.2 := by
  intro resps
  induction resps with
  | nil => intro s _ _ _; rfl
  | cons p rest ih =>
    intro s hkeys hmem hnd
    obtain ⟨m, hm⟩ := lookupPending_some_of_mem (hmem p (List.mem_cons_self p rest))
    have hnd0 : (p.1 :: rest.map Prod.fst).Nodup := by
      simpa only [List.map_cons] using hnd
    have hnd' := List.nodup_cons.1 hnd0
    have hmem' : ∀ q ∈ rest, q.1 ∈ (removePending s.pending p.1).map Prod.fst := by
      intro q hq
      rw [keys_removePending]
      refine List.mem_filter.2 ⟨hmem q (List.mem_cons_of_mem p hq), ?_⟩
      have hne : ¬ q.1 = p.1 :=
        fun he => hnd'.1 (he ▸ List.mem_map_of_mem Prod.fst hq)
      simpa using hne
    have hkeys' : ((removePending s.pending p.1).map Prod.fst).Nodup := by
      rw [keys_removePending]
      exact hkeys.filter _
    simp only [List.map_cons, runClient, step, hm]
    rw [ih ⟨s.nextRequestId, removePending s.pending p.1⟩ hkeys' hmem' hnd'.2]
    rfl

theorem runClient_fireAll : ∀ (l : List (Nat × String)) (n : Nat),
    (l.map Prod.fst).Nodup →
    runClient ⟨n, l⟩ (l.map fun p => ClientEvent.timerFire p.1)
      = (⟨n, []⟩, l.map fun p => Completion.err p.1 (LspErr.timeout p.2)) := by
  intro l
  induction l with
  | nil => intro n _; rfl
  | cons p rest ih =>
    intro n hnd
    have hnd0 : (p.1 :: rest.map Prod.fst).Nodup := by
      simpa only [List.map_cons] using hnd
    have hnd' := List.nodup_cons.1 hnd0
    have hlook : lookupPending (p :: rest) p.1 = some p.2 := by
      simp [lookupPending]
    have hrem : removePending (p :: rest) p.1 = rest := by
      have h2 : removePending rest p.1 = rest := removePending_of_not_mem hnd'.1
      simp only [removePending, List.filter_cons] at h2 ⊢
      simpa using h2
    simp only [List.map_cons, runClient, step, hlook, hrem]
    rw [ih n hnd'.2]
    rfl

/-! ## Supporting lemmas: request-id allocation -/

theorem sendBatch_ids : ∀ (ms : List String) (s : ClientState),
    (sendBatch s ms).1 = List.range' s.nextRequestId ms.length := by
  intro ms
  induction ms with
  | nil => intro s; rfl
  | cons m rest ih =>
    intro s
    simp only [sendBatch, sendRequest, ih, List.length_cons]
    rfl

theorem sendBatch_pending : ∀ (ms : List String) (s : ClientState),
    (sendBatch s ms).2.pending
      = s.pending ++ (List.range' s.nextRequestId ms.length).zip ms := by
  intro ms
  induction ms with
  | nil => intro s; simp [sendBatch]
  | cons m rest ih =>
    intro s
    simp only [sendBatch, sendRequest, ih, List.length_cons]
    rw [show List.range' s.nextRequestId (rest.length + 1)
          = s.nextRequestId :: List.range' (s.nextRequestId + 1) rest.length from rfl]
    simp [List.append_assoc]

theorem sendBatch_next : ∀ (ms : List String) (s : ClientState),
    (sendBatch s ms).2.nextRequestId = s.nextRequestId + ms.length := by
  intro ms
  induction ms with
  | nil => intro s; simp [sendBatch]
  | cons m rest ih =>
    intro s
    simp only [sendBatch, sendRequest, ih, List.length_cons]
    omega

/-! ## Supporting lemmas: decimal numerals and the wire header -/

theorem digitChar_isDigit (d : Nat) : (digitChar d).isDigit = true := by
  unfold digitChar
  split <;> decide

theorem mem_natToDecAux_isDigit :
    ∀ (fuel n : Nat) (c : Char), c ∈ natToDecAux fuel n → c.isDigit = true := by
  intro fuel
  induction fuel with
  | zero =>
    intro n c hc
    simp only [natToDecAux, List.mem_singleton] at hc
    rw [hc]
    exact digitChar_isDigit _
  | succ fuel ih =>
    intro n c hc
    unfold natToDecAux at hc
    by_cases h : n < 10
    · rw [if_pos h] at hc
      simp only [List.mem_singleton] at hc
      rw [hc]
      exact digitChar_isDigit _
    · rw [if_neg h] at hc
      rcases List.mem_append.1 hc with h1 | h1
      · exact ih _ _ h1
      · simp only [List.mem_singleton] at h1
        rw [h1]
        exact digitChar_isDigit _

theorem natToDecAux_ne_nil (fuel n : Nat) : natToDecAux fuel n ≠ [] := by
  cases fuel with
  | zero => simp [natToDecAux]
  | succ fuel =>
    unfold natToDecAux
    by_cases h : n < 10 <;> simp [h]

theorem parseDec_append_digit (l : List Char) (c : Char) :
    parseDec (l ++ [c]) = 10 * parseDec l + (c.toNat - 48) := by
  unfold parseDec
  rw [List.foldl_append]
  rfl

theorem digitVal_digitChar {d : Nat} (h : d < 10) :
    (digitChar d).toNat - 48 = d := by
  interval_cases d <;> rfl

theorem parseDec_natToDecAux :
    ∀ (fuel n : Nat), n ≤ fuel → parseDec (natToDecAux fuel n) = n := by
  intro fuel
  induction fuel with
  | zero =>
    intro n hn
    have h0 : n = 0 := Nat.le_zero.1 hn
    subst h0
    rfl
  | succ fuel ih =>
    intro n hn
    unfold natToDecAux
    by_cases h : n < 10
    · rw [if_pos h]
      have : parseDec [digitChar n] = (digitChar n).toNat - 48 := by
        unfold parseDec
        simp
      rw [this]
      exact digitVal_digitChar h
    · rw [if_neg h]
      rw [parseDec_append_digit, ih (n / 10) (by omega),
        digitVal_digitChar (Nat.mod_lt n (by omega))]
      omega

theorem parseDec_natToDec (n : Nat) : parseDec (natToDec n) = n :=
  parseDec_natToDecAux n n (Nat.le_refl n)

theorem leadsWith_nil (s : List Char) : leadsWith s [] = true := by
  cases s <;> rfl

theorem leadsWith_append (pat rest : List Char) :
    leadsWith (pat ++ rest) pat = true := by
  induction pat with
  | nil => exact leadsWith_nil rest
  | cons c cs ih => simp [leadsWith, ih]

theorem findSubIdx_append (b : List Char) :
    ∀ a : List Char, '\r' ∉ a →
      findSubIdx headerSep (a ++ (headerSep ++ b)) = some a.length := by
  intro a
  induction a with
  | nil =>
    intro _
    have hlw : leadsWith (headerSep ++ b) headerSep = true := leadsWith_append _ _
    rw [List.nil_append]
    rw [show headerSep ++ b = '\r' :: ('\n' :: '\r' :: '\n' :: b) from rfl] at hlw ⊢
    simp [findSubIdx, hlw]
  | cons c cs ih =>
    intro ha
    have hc : ¬ c = '\r' := fun he => ha (by rw [he]; exact List.mem_cons_self _ _)
    have hlw : leadsWith (c :: (cs ++ (headerSep ++ b))) headerSep = false := by
      simp [headerSep, leadsWith, hc]
    rw [List.cons_append]
    unfold findSubIdx
    rw [if_neg (by simp [hlw]), ih (fun hm => ha (List.mem_cons_of_mem _ hm))]
    rfl

theorem matchContentLength_exact (pre digits : List Char)
    (hpre : pre.map Char.toLower = clPat)
    (hdig : ∀ c ∈ digits, c.isDigit = true) (hne : digits ≠ []) :
    matchContentLength (pre ++ digits) = some (parseDec digits) := by
  cases pre with
  | nil => simp [clPat] at hpre
  | cons c cs =>
    have hlen : clPat.length = (c :: cs).length := by
      rw [← hpre, List.length_map]
    have hlead : leadsWith (((c :: cs) ++ digits).map Char.toLower) clPat = true := by
      rw [List.map_append, hpre]
      exact leadsWith_append _ _
    have hdrop : ((c :: cs) ++ digits).drop clPat.length = digits :=
      List.drop_left' hlen.symm
    have htake : digits.takeWhile Char.isDigit = digits :=
      List.takeWhile_eq_self_iff.2 hdig
    have hempty : (digits.takeWhile Char.isDigit).isEmpty = false := by
      rw [htake]
      cases digits with
      | nil => exact absurd rfl hne
      | cons d ds => rfl
    rw [List.cons_append]
    unfold matchContentLength
    rw [List.cons_append] at hlead hdrop
    rw [hdrop, htake]
    have hempty2 : ¬ (digits.isEmpty = true) := by
      cases digits with
      | nil => exact absurd rfl hne
      | cons d ds => simp
    rw [if_pos hlead, if_neg hempty2]

/-! ## Supporting lemmas: similar-types detector -/

theorem similarEmit_iff_rat (props1 props2 : List (List Char)) :
    (unionSetSize props1 props2
        ≤ 2 * (props1.filter (fun p => p ∈ props2)).length ∧
      2 ≤ (props1.filter (fun p => p ∈ props2)).length)
    ↔ ((1 : ℚ) / 2 ≤ (calculateSimilarity props1 props2).2 ∧
      2 ≤ (calculateSimilarity props1 props2).1.length) := by
  have hshared : (calculateSimilarity props1 props2).1
      = props1.filter (fun p => p ∈ props2) := rfl
  have hsim : (calculateSimilarity props1 props2).2
      = if 0 < unionSetSize props1 props2 then
          ((props1.filter (fun p => p ∈ props2)).length : ℚ)
            / (unionSetSize props1 props2 : ℚ)
        else 0 := rfl
  rw [hshared, hsim]
  by_cases hu : 0 < unionSetSize props1 props2
  · rw [if_pos hu]
    have key : ((1 : ℚ) / 2
          ≤ ((props1.filter (fun p => p ∈ props2)).length : ℚ)
            / (unionSetSize props1 props2 : ℚ))
        ↔ unionSetSize props1 props2
            ≤ 2 * (props1.filter (fun p => p ∈ props2)).length := by
      rw [div_le_div_iff (by norm_num) (by exact_mod_cast hu), one_mul]
      norm_cast
      rw [Nat.mul_comm]
    exact and_congr key.symm Iff.rfl
  · rw [if_neg hu]
    have hu0 : unionSetSize props1 props2 = 0 := Nat.eq_zero_of_not_pos hu
    have hp1 : props1 = [] := by
      have hded : (props1 ++ props2).dedup = [] := List.length_eq_zero.1 hu0
      have happ : props1 ++ props2 = [] := by
        rwa [List.dedup_eq_nil] at hded
      exact (List.append_eq_nil.1 happ).1
    subst hp1
    simp

theorem mem_similarLoop_pairs :
    ∀ (pairs : List (TypeEntry × TypeEntry)) (processed : List String)
      (f : SimilarFinding), f ∈ similarLoop pairs processed →
      (f.typeA, f.typeB) ∈ pairs := by
  intro pairs
  induction pairs with
  | nil => intro processed f h; simp [similarLoop] at h
  | cons pq rest ih =>
    intro processed f h
    obtain ⟨t1, t2⟩ := pq
    simp only [similarLoop] at h
    by_cases h1 : t1.name = t2.name
    · rw [if_pos h1] at h
      exact List.mem_cons_of_mem _ (ih _ _ h)
    · rw [if_neg h1] at h
      by_cases h2 : pairKey t1.name t2.name ∈ processed
      · rw [if_pos h2] at h
        exact List.mem_cons_of_mem _ (ih _ _ h)
      · rw [if_neg h2] at h
        by_cases h3 : unionSetSize t1.properties t2.properties
              ≤ 2 * (t1.properties.filter (fun p => p ∈ t2.properties)).length ∧
            2 ≤ (t1.properties.filter (fun p => p ∈ t2.properties)).length
        · rw [if_pos h3] at h
          rcases List.mem_cons.1 h with he | hm
          · rw [he]
            exact List.mem_cons_self _ _
          · exact List.mem_cons_of_mem _ (ih _ _ hm)
        · rw [if_neg h3] at h
          exact List.mem_cons_of_mem _ (ih _ _ h)

theorem mem_pairsFrom :
    ∀ (l : List TypeEntry) (a b : TypeEntry),
      (a, b) ∈ pairsFrom l → a ∈ l ∧ b ∈ l := by
  intro l
  induction l with
  | nil => intro a b h; simp [pairsFrom] at h
  | cons t rest ih =>
    intro a b h
    simp only [pairsFrom, List.mem_append] at h
    rcases h with h1 | h1
    · obtain ⟨u, hu, he⟩ := List.mem_map.1 h1
      have ha : t = a := congrArg Prod.fst he
      have hb : u = b := congrArg Prod.snd he
      constructor
      · rw [← ha]
        exact List.mem_cons_self _ _
      · rw [← hb]
        exact List.mem_cons_of_mem _ hu
    · exact ⟨List.mem_cons_of_mem _ (ih a b h1).1,
        List.mem_cons_of_mem _ (ih a b h1).2⟩

theorem collectTypes_props (contents : String → Option (List (List Char)))
    (syms : List SymbolInfo) :
    ∀ t ∈ collectTypes contents syms, 2 ≤ t.properties.length := by
  intro t ht
  unfold collectTypes at ht
  obtain ⟨sym, hsym, he⟩ := List.mem_filterMap.1 ht
  dsimp only at he
  by_cases hk : symbolKindName sym.kind = "interface" ∨ symbolKindName sym.kind = "class"
  · rw [if_pos hk] at he
    cases hcc : contents sym.file with
    | none =>
      rw [hcc] at he
      exact absurd he (by simp)
    | some lines =>
      rw [hcc] at he
      dsimp only at he
      by_cases h2 : 2 ≤ (extractTypeProperties lines sym.range.start.line).length
      · rw [if_pos h2] at he
        have ht2 := Option.some.inj he
        rw [← ht2]
        exact h2
      · rw [if_neg h2] at he
        exact absurd he (by simp)
  · rw [if_neg hk] at he
    exact absurd he (by simp)

/-! ## Supporting lemmas: dead-parameter detector -/

theorem mem_deadForSym (contents : String → Option (List (List Char)))
    (sym : SymbolInfo) (f : DeadParamFinding) :
    f ∈ deadForSym contents sym ↔
      ((symbolKindName sym.kind = "function" ∨ symbolKindName sym.kind = "method") ∧
        ∃ lines, contents sym.file = some lines ∧
        ∃ grp, firstParenGroup (lines.getD sym.range.start.line []) = some grp ∧
        ∃ param, param ∈ paramNamesOf grp ∧
          ¬(param = "self".data ∨ param = "this".data ∨ param = "cls".data) ∧
          hasWholeWord param
            (List.intercalate ['\n']
              (sliceLines lines (sym.range.start.line + 1)
                (min sym.range.stop.line (lines.length - 1) + 1))) = false ∧
          f = ⟨sym.fullName, param, sym.file, sym.range.start.line + 1⟩) := by
  unfold deadForSym
  by_cases hk : symbolKindName sym.kind = "function" ∨ symbolKindName sym.kind = "method"
  · rw [if_pos hk]
    cases hcc : contents sym.file with
    | none =>
      constructor
      · intro h
        exact absurd h (by simp)
      · rintro ⟨-, lines2, hl2, -⟩
        exact absurd hl2 (by simp)
    | some lines =>
      dsimp only
      cases hg : firstParenGroup (lines.getD sym.range.start.line []) with
      | none =>
        constructor
        · intro h
          exact absurd h (by simp)
        · rintro ⟨-, lines2, hl2, grp2, hg2, -⟩
          obtain rfl : lines2 = lines := (Option.some.inj hl2).symm
          rw [hg] at hg2
          exact absurd hg2 (by simp)
      | some grp =>
        constructor
        · intro h
          obtain ⟨param, hp, he⟩ := List.mem_filterMap.1 h
          by_cases hex : param = "self".data ∨ param = "this".data ∨ param = "cls".data
          · rw [if_pos hex] at he
            exact absurd he (by simp)
          · rw [if_neg hex] at he
            by_cases hww : hasWholeWord param
                (List.intercalate ['\n']
                  (sliceLines lines (sym.range.start.line + 1)
                    (min sym.range.stop.line (lines.length - 1) + 1))) = true
            · rw [if_pos hww] at he
              exact absurd he (by simp)
            · rw [if_neg hww] at he
              exact ⟨hk, lines, rfl, grp, hg, param, hp, hex,
                Bool.not_eq_true _ ▸ hww, (Option.some.inj he).symm⟩
        · rintro ⟨-, lines2, hl2, grp2, hg2, param, hp, hex, hww, hf⟩
          obtain rfl : lines2 = lines := (Option.some.inj hl2).symm
          obtain rfl : grp2 = grp := Option.some.inj ((hg2.symm).trans hg)
          refine List.mem_filterMap.2 ⟨param, hp, ?_⟩
          dsimp only
          rw [if_neg hex, if_neg (by simp [hww]), hf]
  · rw [if_neg hk]
    constructor
    · intro h
      exact absurd h (by simp)
    · rintro ⟨hk2, -⟩
      exact absurd hk2 hk

/-! ## Claim theorems -/

/-- Sanity check that the framer embedding round-trips ASCII frames,
including a frame split across two chunks interleaved with a second
message. -/
theorem framer_ascii_sanity :
    (feedFramer [] (encodeMessage "\x7b\"v\":1\x7d".data)).1
      = ["\x7b\"v\":1\x7d".data] ∧
    (feedAll [(encodeMessage "ab".data).take 5,
        (encodeMessage "ab".data).drop 5 ++ encodeMessage "xyz".data]).1
      = ["ab".data, "xyz".data] := by
  constructor
  · decide
  · decide

/-- C1: the framer round-trip claim fails on the code for non-ASCII
bodies.  The encoder declares the UTF-8 byte count (here 10), but the
decoder compares that count against JS string length (here the complete
frame supplies only 9 body units), so even though every declared byte of
the body has arrived, `feed(encode(m))` emits nothing and the whole frame
stays in the buffer: the round trip yields `[]`, not `[m]`. -/
theorem C1_nonascii_frame_withheld :
    utf8Len c1Body = 10 ∧ c1Body.length = 9 ∧
    feedFramer [] (encodeMessage c1Body) = ([], encodeMessage c1Body) := by
  refine ⟨by decide, by decide, by decide⟩

/-- C2 counterexample: a client with one outstanding request receives the
child-process exit event; the handler only re-emits `exit`, so no
completion at all is produced (in particular none carrying a
`ProcessExited` error) and the request is still pending afterwards. -/
theorem C2_counterexample :
    ([(1, "textDocument/references")] : List (Nat × String)) ≠ [] ∧
    runClient ⟨2, [(1, "textDocument/references")]⟩ [ClientEvent.processExit 1]
      = (⟨2, [(1, "textDocument/references")]⟩, []) := by
  exact ⟨by decide, rfl⟩

/-- C2 (amended): an unexpected child exit fails no outstanding request
and leaves the pending map untouched (the handler only emits an `exit`
event); the run still does not hang, because each outstanding request is
later resolved as a Timeout by its own per-request timer, after which no
request is pending. -/
theorem C2_exit_leaves_pending_timers_drain (s : ClientState) (code : Int)
    (hkeys : (s.pending.map Prod.fst).Nodup) :
    step s (ClientEvent.processExit code) = (s, []) ∧
    runClient s (ClientEvent.processExit code ::
        s.pending.map fun p => ClientEvent.timerFire p.1)
      = (⟨s.nextRequestId, []⟩,
         s.pending.map fun p => Completion.err p.1 (LspErr.timeout p.2)) := by
  obtain ⟨n, l⟩ := s
  refine ⟨rfl, ?_⟩
  simp only [runClient, step]
  rw [runClient_fireAll l n hkeys]
  rfl

/-- C2 witness: the amended theorem applied to a concrete client with one
outstanding request. -/
theorem C2_witness :
    step ⟨2, [(1, "m")]⟩ (ClientEvent.processExit 0) = (⟨2, [(1, "m")]⟩, []) ∧
    runClient ⟨2, [(1, "m")]⟩ (ClientEvent.processExit 0 ::
        ([(1, "m")] : List (Nat × String)).map fun p => ClientEvent.timerFire p.1)
      = (⟨2, []⟩, ([(1, "m")] : List (Nat × String)).map
          fun p => Completion.err p.1 (LspErr.timeout p.2)) :=
  C2_exit_leaves_pending_timers_drain ⟨2, [(1, "m")]⟩ 0 (by decide)

/-- C3 counterexample: at the body `{}` the message actually written is
`Content-Length: 2\r\n\r\n{}`, which differs from the claimed
`Length: 2\r\n\r\n{}`. -/
theorem C3_counterexample :
    encodeMessage "\x7b\x7d".data ≠ claimWireMessage "\x7b\x7d".data := by
  decide

/-- C3 (amended): every message written to the child process is exactly
`"Content-Length: "`, the decimal numeral of the UTF-8 byte count of the
body, `"\r\n\r\n"`, then the body: the numeral indeed denotes that byte
count (`parseDec` round-trip), the first blank line of the wire text sits
exactly at the end of the header, the header parses back to the byte
count, and the remainder after the blank line is exactly the body. -/
theorem C3_wire_format (body : List Char) (hb : '\r' ∉ body) :
    encodeMessage body
        = ("Content-Length: ".data ++ natToDec (utf8Len body))
          ++ (headerSep ++ body) ∧
    parseDec (natToDec (utf8Len body)) = utf8Len body ∧
    findSubIdx headerSep (encodeMessage body)
        = some ("Content-Length: ".data ++ natToDec (utf8Len body)).length ∧
    matchContentLength ((encodeMessage body).take
        ("Content-Length: ".data ++ natToDec (utf8Len body)).length)
        = some (utf8Len body) ∧
    (encodeMessage body).drop
        (("Content-Length: ".data ++ natToDec (utf8Len body)).length + 4)
      = body := by
  have hdig : ∀ c ∈ natToDec (utf8Len body), c.isDigit = true :=
    fun c hc => mem_natToDecAux_isDigit _ _ c hc
  have hnocr : '\r' ∉ "Content-Length: ".data ++ natToDec (utf8Len body) := by
    intro hmem
    rcases List.mem_append.1 hmem with h1 | h1
    · revert h1
      decide
    · have hd := hdig _ h1
      exact absurd hd (by decide)
  have hassoc : encodeMessage body
      = ("Content-Length: ".data ++ natToDec (utf8Len body))
        ++ (headerSep ++ body) := by
    unfold encodeMessage
    simp [List.append_assoc]
  refine ⟨hassoc, parseDec_natToDec _, ?_, ?_, ?_⟩
  · rw [hassoc]
    exact findSubIdx_append body _ hnocr
  · rw [hassoc, List.take_left]
    rw [matchContentLength_exact "Content-Length: ".data (natToDec (utf8Len body))
      (by decide) hdig (natToDecAux_ne_nil _ _), parseDec_natToDec]
  · rw [hassoc, List.drop_append 4]
    exact List.drop_left' rfl

/-- C3 witness: the wire-format theorem applied to the concrete body
`{}` (no carriage return in the body). -/
theorem C3_witness :
    '\r' ∉ "\x7b\x7d".data ∧
    (encodeMessage "\x7b\x7d".data).drop
        (("Content-Length: ".data ++ natToDec (utf8Len "\x7b\x7d".data)).length + 4)
      = "\x7b\x7d".data :=
  ⟨by decide, (C3_wire_format "\x7b\x7d".data (by decide)).2.2.2.2⟩

/-- C4: when a pending request's timer fires, its entry is removed and its
caller is completed with exactly one Timeout error; a Response arriving
afterwards with that id (now unknown) changes nothing and resolves no
caller; and every other pending entry is left exactly as it was, so no
other pending or subsequent request is blocked. -/
theorem C4_timer_then_late_response (s : ClientState) (id : Nat) (m : String)
    (r : Int) (h : lookupPending s.pending id = some m) :
    step s (ClientEvent.timerFire id)
        = (⟨s.nextRequestId, removePending s.pending id⟩,
           [Completion.err id (LspErr.timeout m)]) ∧
    lookupPending (removePending s.pending id) id = none ∧
    step ⟨s.nextRequestId, removePending s.pending id⟩ (ClientEvent.response id r)
        = (⟨s.nextRequestId, removePending s.pending id⟩, []) ∧
    (∀ j, ¬ j = id →
      lookupPending (removePending s.pending id) j = lookupPending s.pending j) := by
  refine ⟨by simp [step, h], lookupPending_removePending_self _ _, ?_,
    fun j hj => lookupPending_removePending_ne hj⟩
  simp [step, lookupPending_removePending_self]

/-- C4 witness: the theorem applied to a client with two pending requests,
firing the timer of request 1 and then delivering its late response. -/
theorem C4_witness :
    step ⟨3, [(1, "m"), (2, "k")]⟩ (ClientEvent.timerFire 1)
        = (⟨3, removePending [(1, "m"), (2, "k")] 1⟩,
           [Completion.err 1 (LspErr.timeout "m")]) ∧
    lookupPending (removePending [(1, "m"), (2, "k")] 1) 1 = none ∧
    step ⟨3, removePending [(1, "m"), (2, "k")] 1⟩ (ClientEvent.response 1 7)
        = (⟨3, removePending [(1, "m"), (2, "k")] 1⟩, []) ∧
    (∀ j, ¬ j = 1 →
      lookupPending (removePending [(1, "m"), (2, "k")] 1) j
        = lookupPending [(1, "m"), (2, "k")] j) :=
  C4_timer_then_late_response ⟨3, [(1, "m"), (2, "k")]⟩ 1 "m" 7 (by decide)

/-- C5: the query facade returns `[]` from the reference query and `null`
from the hover query whenever the underlying request fails (timeout or
remote error); both wrappers are total functions into plain values, so no
per-request error propagates to the caller (a null result is also
flattened to `[]` for references and surfaced as-is for hover). -/
theorem C5_facade_swallows_errors :
    (∀ e : LspErr, referencesResult (ReqOutcome.failed e) = []) ∧
    (∀ e : LspErr, hoverResult (α := String) (ReqOutcome.failed e) = none) ∧
    referencesResult (ReqOutcome.resolved none) = [] ∧
    (∀ locs, referencesResult (ReqOutcome.resolved (some locs)) = locs) ∧
    (∀ v : Option String, hoverResult (ReqOutcome.resolved v) = v) :=
  ⟨fun _ => rfl, fun _ => rfl, rfl, fun _ => rfl, fun _ => rfl⟩

/-- C6: a finding is emitted by the unused detector exactly for a
collected symbol of exportable kind (5, 6, 11, 12) whose name starts with
neither `_` nor `#` and whose reference query with
`includeDeclaration = false` returns zero references, with confidence
`high` exactly for kind class (5) or function (12) via `mkUnusedFinding`;
in the scenario, unreferenced `f` yields exactly one finding, with
confidence `high`, and `g` (referenced from another file) yields none. -/
theorem C6_unused_characterization :
    (∀ (refs : String → Pos → Bool → List Loc) (syms : List SymbolInfo)
        (f : UnusedFinding),
      f ∈ unusedAnalysis refs syms ↔
        ∃ sym, sym ∈ syms ∧ sym.kind ∈ exportableKinds ∧
          jsStartsWith sym.name "_" = false ∧ jsStartsWith sym.name "#" = false ∧
          refs sym.uri (symbolPosition sym) false = [] ∧
          f = mkUnusedFinding sym) ∧
    unusedAnalysis refsScenario [fdecl, gdecl] = [mkUnusedFinding fdecl] ∧
    (mkUnusedFinding fdecl).confidence = "high" ∧
    (mkUnusedFinding fdecl).name = "f" := by
  refine ⟨?_, by decide, by decide, by decide⟩
  intro refs syms f
  unfold unusedAnalysis
  rw [List.mem_filterMap]
  constructor
  · rintro ⟨sym, hsym, he⟩
    by_cases h1 : sym.kind ∈ exportableKinds
    · rw [if_pos h1] at he
      by_cases h2 : (jsStartsWith sym.name "_" || jsStartsWith sym.name "#") = true
      · rw [if_pos h2] at he
        exact absurd he (by simp)
      · rw [if_neg h2] at he
        have h2' := Bool.or_eq_false_iff.1 (Bool.not_eq_true _ ▸ h2)
        by_cases h3 : (refs sym.uri (symbolPosition sym) false).length = 0
        · rw [if_pos h3] at he
          exact ⟨sym, hsym, h1, h2'.1, h2'.2,
            List.length_eq_zero.1 h3, (Option.some.inj he).symm⟩
        · rw [if_neg h3] at he
          exact absurd he (by simp)
    · rw [if_neg h1] at he
      exact absurd he (by simp)
  · rintro ⟨sym, hsym, h1, h2a, h2b, hrefs, hf⟩
    refine ⟨sym, hsym, ?_⟩
    dsimp only
    rw [if_pos h1, if_neg (by simp [h2a, h2b]),
      if_pos (by simp [hrefs]), hf]

/-- C7 counterexample: the detector's similarity is not the Jaccard
similarity of the property-name sets.  For types extracting `[a, a, b]`
(a nested object repeats `a`) and `[a, c, d]`, the set-based Jaccard
similarity is 1/4 < 0.5 and only one distinct name is shared, yet the
detector emits the pair (its multiplicity-counting ratio is 2/4 = 0.5 and
its shared list has two entries). -/
theorem C7_counterexample :
    (similarTypesAnalysis cx7contents [mkTypeSym "T1" "t1.ts", mkTypeSym "T2" "t2.ts"]).map
        (fun f => (f.typeA.name, f.typeB.name, f.sharedProperties, f.similarity))
      = [("T1", "T2", ["a".data, "a".data], 50)] ∧
    jaccardSpec (extractTypeProperties t1lines 0) (extractTypeProperties t2lines 0)
      < 1 / 2 ∧
    sharedSetSize (extractTypeProperties t1lines 0) (extractTypeProperties t2lines 0)
      < 2 := by
  refine ⟨by decide, ?_, by decide⟩
  have h1 : sharedSetSize (extractTypeProperties t1lines 0)
      (extractTypeProperties t2lines 0) = 1 := by decide
  have h2 : unionSetSize (extractTypeProperties t1lines 0)
      (extractTypeProperties t2lines 0) = 4 := by decide
  unfold jaccardSpec
  rw [h1, h2]
  norm_num

/-- C7 (amended): the detector's score divides the count of first-list
entries occurring in the second list (with multiplicity) by the size of
the union set, which coincides with the Jaccard similarity whenever the
first property list has no duplicates; emission happens exactly when that
ratio is at least 0.5 and at least two entries are shared; and the
`{label, data}` / `{label, data, extra}` scenario yields exactly one
finding with sharedProperties `[label, data]` and similarity 2/3 (stored
as the rounded percentage 67). -/
theorem C7_similarity_amended :
    (∀ props1 props2 : List (List Char), props1.Nodup →
        (calculateSimilarity props1 props2).2 = jaccardSpec props1 props2) ∧
    (∀ props1 props2 : List (List Char),
        (unionSetSize props1 props2
            ≤ 2 * (props1.filter (fun p => p ∈ props2)).length ∧
          2 ≤ (props1.filter (fun p => p ∈ props2)).length)
        ↔ ((1 : ℚ) / 2 ≤ (calculateSimilarity props1 props2).2 ∧
            2 ≤ (calculateSimilarity props1 props2).1.length)) ∧
    similarTypesAnalysis sc7contents [mkTypeSym "S1" "s1.ts", mkTypeSym "S2" "s2.ts"]
      = [s1Finding] ∧
    (calculateSimilarity (extractTypeProperties s1lines 0)
        (extractTypeProperties s2lines 0)).2 = 2 / 3 := by
  refine ⟨?_, similarEmit_iff_rat, by decide, ?_⟩
  · intro props1 props2 h
    unfold calculateSimilarity jaccardSpec sharedSetSize
    rw [List.dedup_eq_self.2 h]
  · have hfil : ((extractTypeProperties s1lines 0).filter
        (fun p => p ∈ extractTypeProperties s2lines 0)).length = 2 := by decide
    have huni : unionSetSize (extractTypeProperties s1lines 0)
        (extractTypeProperties s2lines 0) = 3 := by decide
    have hsim : (calculateSimilarity (extractTypeProperties s1lines 0)
        (extractTypeProperties s2lines 0)).2
        = if 0 < unionSetSize (extractTypeProperties s1lines 0)
              (extractTypeProperties s2lines 0) then
            (((extractTypeProperties s1lines 0).filter
                (fun p => p ∈ extractTypeProperties s2lines 0)).length : ℚ)
              / (unionSetSize (extractTypeProperties s1lines 0)
                  (extractTypeProperties s2lines 0) : ℚ)
          else 0 := rfl
    rw [hsim, hfil, huni]
    norm_num

/-- C7 witness: the amended theorem's first part applied at concrete
duplicate-free property lists. -/
theorem C7_witness :
    (calculateSimilarity ["a".data, "b".data] ["b".data, "c".data]).2
      = jaccardSpec ["a".data, "b".data] ["b".data, "c".data] :=
  C7_similarity_amended.1 ["a".data, "b".data] ["b".data, "c".data] (by decide)

/-- C8 counterexample: for the one-line declaration
`function f(x) { return x; }` the parameter `x` occurs as a whole word in
the declaration's body text (the brace block on the declaration line,
inside the declared range), yet the detector reports `x` as dead, because
it only searches lines strictly after the declaration's first line. -/
theorem C8_counterexample :
    deadParamsAnalysis c8contents [fsym]
      = [⟨"f", "x".data, "a.ts", 1⟩] ∧
    ("function f(x) \x7b return x; \x7d".data).drop 13
      = " \x7b return x; \x7d".data ∧
    hasWholeWord "x".data " \x7b return x; \x7d".data = true := by
  refine ⟨by decide, by decide, by decide⟩

/-- C8 (amended): the dead-parameter detector reports, for each collected
function or method with available file content and a parameter list on
the declaration's first line, exactly those extracted parameter
identifiers that are not `self`/`this`/`cls` and have no whole-word
occurrence in the text of the lines strictly after the declaration line
through the declared end line (the remainder of the declaration's first
line is not searched). -/
theorem C8_dead_params_characterization :
    ∀ (contents : String → Option (List (List Char))) (syms : List SymbolInfo)
      (f : DeadParamFinding),
      f ∈ deadParamsAnalysis contents syms ↔
        ∃ sym, sym ∈ syms ∧
          ((symbolKindName sym.kind = "function"
              ∨ symbolKindName sym.kind = "method") ∧
            ∃ lines, contents sym.file = some lines ∧
            ∃ grp, firstParenGroup (lines.getD sym.range.start.line []) = some grp ∧
            ∃ param, param ∈ paramNamesOf grp ∧
              ¬(param = "self".data ∨ param = "this".data ∨ param = "cls".data) ∧
              hasWholeWord param
                (List.intercalate ['\n']
                  (sliceLines lines (sym.range.start.line + 1)
                    (min sym.range.stop.line (lines.length - 1) + 1))) = false ∧
              f = ⟨sym.fullName, param, sym.file, sym.range.start.line + 1⟩) := by
  intro contents syms f
  unfold deadParamsAnalysis
  rw [List.mem_flatMap]
  constructor
  · rintro ⟨sym, hsym, hf⟩
    exact ⟨sym, hsym, (mem_deadForSym contents sym f).1 hf⟩
  · rintro ⟨sym, hsym, hrest⟩
    exact ⟨sym, hsym, (mem_deadForSym contents sym f).2 hrest⟩

/-- C9: request ids are allocated strictly increasing starting at 1        
(hence unique for the session), the counter afterwards exceeds every
issued id (so ids are never reused), and delivering distinct-id responses
for issued requests in any order completes each caller with exactly its
own result, in arrival order. -/
theorem C9_ids_and_correlation (ms : List String) (resps : List (Nat × Int))
    (hnd : (resps.map Prod.fst).Nodup)
    (hsub : ∀ p ∈ resps, p.1 ∈ (sendBatch initialClient ms).1) :
    (sendBatch initialClient ms).1 = List.range' 1 ms.length ∧
    ((sendBatch initialClient ms).1).Pairwise (· < ·) ∧
    (sendBatch initialClient ms).2.nextRequestId = 1 + ms.length ∧
    (runClient (sendBatch initialClient ms).2
        (resps.map fun p => ClientEvent.response p.1 p.2)).2
      = resps.map fun p => Completion.ok p.1 p.2 := by
  have hids : (sendBatch initialClient ms).1 = List.range' 1 ms.length :=
    sendBatch_ids ms initialClient
  have hpend : (sendBatch initialClient ms).2.pending
      = ([] : List (Nat × String)) ++ (List.range' 1 ms.length).zip ms :=
    sendBatch_pending ms initialClient
  have hlen : (List.range' 1 ms.length).length = ms.length :=
    List.length_range' 1 1 ms.length
  have hkeys : ((sendBatch initialClient ms).2.pending.map Prod.fst)
      = List.range' 1 ms.length := by
    rw [hpend, List.nil_append]
    exact List.map_fst_zip _ _ (by rw [hlen])
  refine ⟨hids, ?_, ?_, ?_⟩
  · rw [hids]
    exact List.pairwise_lt_range' 1 ms.length 1
  · rw [sendBatch_next ms initialClient]
    rfl
  · apply runClient_responses resps (sendBatch initialClient ms).2
    · rw [hkeys]
      exact List.nodup_range' 1 ms.length
    · intro p hp
      rw [hkeys, ← hids]
      exact hsub p hp
    · exact hnd

/-- C9 witness: two issued requests answered in reverse order, each caller
receiving its own result. -/
theorem C9_witness :
    (sendBatch initialClient ["a", "b"]).1
      = List.range' 1 (["a", "b"] : List String).length ∧
    ((sendBatch initialClient ["a", "b"]).1).Pairwise (· < ·) ∧
    (sendBatch initialClient ["a", "b"]).2.nextRequestId
      = 1 + (["a", "b"] : List String).length ∧
    (runClient (sendBatch initialClient ["a", "b"]).2
        (([(2, 20), (1, 10)] : List (Nat × Int)).map
          fun p => ClientEvent.response p.1 p.2)).2
      = ([(2, 20), (1, 10)] : List (Nat × Int)).map
          fun p => Completion.ok p.1 p.2 :=
  C9_ids_and_correlation ["a", "b"] [(2, 20), (1, 10)] (by decide) (by decide)

/-- C10: every similar-types finding pairs two candidate entries, and a
candidate only enters the list with at least two textually extracted
properties, so a type extracting fewer than two property names is never
part of a finding; in particular two textually identical single-property
interfaces produce no finding at all. -/
theorem C10_similar_requires_two_props :
    (∀ (contents : String → Option (List (List Char))) (syms : List SymbolInfo)
        (f : SimilarFinding), f ∈ similarTypesAnalysis contents syms →
        2 ≤ f.typeA.properties.length ∧ 2 ≤ f.typeB.properties.length) ∧
    similarTypesAnalysis c10contents
        [mkTypeSym "P" "p1.ts", mkTypeSym "P2" "p2.ts"] = [] := by
  constructor
  · intro contents syms f hf
    have hpair := mem_similarLoop_pairs _ _ _ hf
    have hmem := mem_pairsFrom _ _ _ hpair
    exact ⟨collectTypes_props contents syms _ hmem.1,
      collectTypes_props contents syms _ hmem.2⟩
  · decide

/-- C10 witness: the bound applied to the concrete finding produced by
the `{label, data}` scenario run. -/
theorem C10_witness :
    2 ≤ s1Finding.typeA.properties.length ∧
    2 ≤ s1Finding.typeB.properties.length :=
  C10_similar_requires_two_props.1 sc7contents
    [mkTypeSym "S1" "s1.ts", mkTypeSym "S2" "s2.ts"] s1Finding (by decide)

end LspAnalyze
